import Mathlib

/-!
Formal model of the gainmap-js gain-map transform engine.

The development shallowly embeds the code of the repository: the decode
entry point (`src/decode.ts`), the SDR rendition renderer
(`src/encode-utils/render-sdr.ts`) and the encode entry point
(`src/encode.ts`).  Parts of the repository that are referenced but not
present in the source tree (the decoder material's per-channel math, the
quad-renderer pass object, the metadata packet codec and the container
segment codec) are modelled from the specification; each such definition
carries a doc comment starting with `Modelled from the spec:`.
-/

namespace GainmapJS

/-! ## Color transform formulas (decode side)

The per-channel inverse transform lives in `GainMapDecoderMaterial`, which
is not part of the source tree; it is modelled from the spec's formulas.
-/

/-- Modelled from the spec: the decode-side metadata record
(`GainMapMetadata`), with per-channel triplets represented as functions
`Fin 3 → ℝ` and the two capacity scalars. -/
structure GainMapMetadata where
  gainMapMin : Fin 3 → ℝ
  gainMapMax : Fin 3 → ℝ
  gamma : Fin 3 → ℝ
  offsetSdr : Fin 3 → ℝ
  offsetHdr : Fin 3 → ℝ
  hdrCapacityMin : ℝ
  hdrCapacityMax : ℝ

/-- Modelled from the spec: the validity invariants of a metadata record:
`gainMapMax[c] ≥ gainMapMin[c]`, `hdrCapacityMax ≥ hdrCapacityMin ≥ 0`,
`gamma[c] > 0`. -/
def GainMapMetadata.Valid (m : GainMapMetadata) : Prop :=
  (∀ c, m.gainMapMin c ≤ m.gainMapMax c) ∧
    0 ≤ m.hdrCapacityMin ∧ m.hdrCapacityMin ≤ m.hdrCapacityMax ∧
    ∀ c, 0 < m.gamma c

/-- Modelled from the spec: the fraction of the encoded boost range that is
applied, as a function of the requested `maxDisplayBoost`.  The requested
boost is taken in log2 space and clamped to
`[hdrCapacityMin, hdrCapacityMax]`; the weight ramps linearly from 0 at
`hdrCapacityMin` to 1 at `hdrCapacityMax`. -/
noncomputable def weightFactor (hdrCapacityMin hdrCapacityMax maxDisplayBoost : ℝ) : ℝ :=
  (min (max (Real.logb 2 maxDisplayBoost) hdrCapacityMin) hdrCapacityMax - hdrCapacityMin) /
    (hdrCapacityMax - hdrCapacityMin)

/-- Modelled from the spec: the per-channel inverse transform
`H[c] = (S + offsetSdr[c]) * 2^(logBoost * weight) - offsetHdr[c]` with
`logBoost = gainMapMin[c] + (gainMapMax[c] - gainMapMin[c]) * G ^ gamma[c]`. -/
noncomputable def decodeChannel (gMin gMax g oSdr oHdr w S G : ℝ) : ℝ :=
  (S + oSdr) * (2 : ℝ) ^ ((gMin + (gMax - gMin) * G ^ g) * w) - oHdr

/-- Modelled from the spec: the inverse transform applied to one RGBA-free
pixel, channel by channel, all channels sharing the weight `w`. -/
noncomputable def decodePixel (m : GainMapMetadata) (w : ℝ) (S G : Fin 3 → ℝ) : Fin 3 → ℝ :=
  fun c =>
    decodeChannel (m.gainMapMin c) (m.gainMapMax c) (m.gamma c)
      (m.offsetSdr c) (m.offsetHdr c) w (S c) (G c)

/-- Modelled from the spec: the decoder's full pass, pairing each SDR pixel
with the gain-map pixel at the same position (the code samples both
textures at the same UV coordinate). -/
noncomputable def decode (m : GainMapMetadata) (maxDisplayBoost : ℝ)
    (sdr gainMap : List (Fin 3 → ℝ)) : List (Fin 3 → ℝ) :=
  List.zipWith (decodePixel m (weightFactor m.hdrCapacityMin m.hdrCapacityMax maxDisplayBoost))
    sdr gainMap

end GainmapJS

namespace GainmapJS

/-- C1: the decoder's per-channel inverse transform satisfies the spec's
worked example: with `gainMapMin = [0,0,0]`, `gainMapMax = [1,1,1]`,
`gamma = [1,1,1]`, `offsetSdr = offsetHdr = [1/64,1/64,1/64]`,
`hdrCapacityMin = 0`, `hdrCapacityMax = 1`, an SDR linear value `0.5`,
stored gain `0.5` and `maxDisplayBoost = 2.0`, `decode` produces the
linear value `(0.5 + 1/64) * 2 ^ (0.5 * 1) - 1/64`. -/
theorem decode_worked_example :
    decode
      { gainMapMin := fun _ => 0, gainMapMax := fun _ => 1, gamma := fun _ => 1,
        offsetSdr := fun _ => 1 / 64, offsetHdr := fun _ => 1 / 64,
        hdrCapacityMin := 0, hdrCapacityMax := 1 }
      2 [fun _ => 1 / 2] [fun _ => 1 / 2] =
      [fun _ => (1 / 2 + 1 / 64) * (2 : ℝ) ^ ((1 / 2 : ℝ) * 1) - 1 / 64] := by
  have hw : weightFactor 0 1 2 = 1 := by
    rw [weightFactor, Real.logb_self_eq_one (by norm_num)]
    norm_num
  simp only [decode, List.zipWith_cons_cons, List.zipWith_nil_right, hw,
    List.cons.injEq, and_true]
  funext c
  rw [decodePixel, decodeChannel, Real.rpow_one]
  norm_num

/-- A valid metadata record whose two offsets differ; it refutes C3's
"equal to the SDR image" reading of the low-boost boundary. -/
noncomputable def offsetGapMetadata : GainMapMetadata where
  gainMapMin := fun _ => 0
  gainMapMax := fun _ => 1
  gamma := fun _ => 1
  offsetSdr := fun _ => 0
  offsetHdr := fun _ => 1 / 64
  hdrCapacityMin := 0
  hdrCapacityMax := 1

/-- A valid metadata record with equal offsets, used to instantiate the
amended boundary theorem. -/
noncomputable def boundaryExampleMetadata : GainMapMetadata where
  gainMapMin := fun _ => 0
  gainMapMax := fun _ => 1
  gamma := fun _ => 1
  offsetSdr := fun _ => 1 / 64
  offsetHdr := fun _ => 1 / 64
  hdrCapacityMin := 0
  hdrCapacityMax := 1

/-- C3 counterexample: for the valid record `offsetGapMetadata` (offsets
`0` and `1/64`) and `maxDisplayBoost = 1 ≤ 2 ^ hdrCapacityMin`, the decoded
pixel is `1/2 - 1/64`, not the SDR value `1/2`: the output is not "equal to
the SDR image" whenever the two offsets differ. -/
theorem decode_low_boost_counterexample :
    offsetGapMetadata.Valid ∧
      (1 : ℝ) ≤ (2 : ℝ) ^ offsetGapMetadata.hdrCapacityMin ∧
      decode offsetGapMetadata 1 [fun _ => 1 / 2] [fun _ => 1 / 2] ≠
        [fun _ => (1 / 2 : ℝ)] := by
  refine ⟨⟨fun c => by norm_num [offsetGapMetadata], by norm_num [offsetGapMetadata],
    by norm_num [offsetGapMetadata], fun c => by norm_num [offsetGapMetadata]⟩,
    by norm_num [offsetGapMetadata], ?_⟩
  have hw : weightFactor offsetGapMetadata.hdrCapacityMin
      offsetGapMetadata.hdrCapacityMax 1 = 0 := by
    rw [offsetGapMetadata, weightFactor]
    norm_num
  simp only [ne_eq, decode, List.zipWith_cons_cons, List.zipWith_nil_right, hw,
    List.cons.injEq, and_true]
  intro h
  have h0 := congrFun h 0
  rw [decodePixel, decodeChannel] at h0
  rw [offsetGapMetadata] at h0
  simp only [zero_mul, mul_zero, zero_add, Real.rpow_zero, mul_one, add_zero] at h0
  norm_num at h0

/-- C3 amended: for a metadata record with `0 ≤ hdrCapacityMin <
hdrCapacityMax` and `0 < maxDisplayBoost`: below `2 ^ hdrCapacityMin` the
weight is 0 and every decoded pixel is `S + offsetSdr - offsetHdr` (the SDR
value shifted by the offset difference — equal to the SDR image exactly
when the two offsets coincide); at or above `2 ^ hdrCapacityMax` the weight
is 1 and the full encoded boost is applied; in between the weight ramps
linearly in log2 space. -/
theorem decode_boundary (m : GainMapMetadata) (b : ℝ)
    (_h0 : 0 ≤ m.hdrCapacityMin) (hlt : m.hdrCapacityMin < m.hdrCapacityMax)
    (hb : 0 < b) :
    (b ≤ (2 : ℝ) ^ m.hdrCapacityMin →
      ∀ sdr gainMap, decode m b sdr gainMap =
        List.zipWith (fun S _ => fun c => S c + m.offsetSdr c - m.offsetHdr c) sdr gainMap) ∧
    ((2 : ℝ) ^ m.hdrCapacityMax ≤ b →
      ∀ sdr gainMap, decode m b sdr gainMap =
        List.zipWith (decodePixel m 1) sdr gainMap) ∧
    ((2 : ℝ) ^ m.hdrCapacityMin ≤ b → b ≤ (2 : ℝ) ^ m.hdrCapacityMax →
      weightFactor m.hdrCapacityMin m.hdrCapacityMax b =
        (Real.logb 2 b - m.hdrCapacityMin) / (m.hdrCapacityMax - m.hdrCapacityMin)) := by
  have h2 : (1 : ℝ) < 2 := by norm_num
  refine ⟨fun hlow sdr gainMap => ?_, fun hhigh sdr gainMap => ?_, fun hge hle => ?_⟩
  · have hlogb : Real.logb 2 b ≤ m.hdrCapacityMin :=
      (Real.logb_le_iff_le_rpow h2 hb).mpr hlow
    have hw : weightFactor m.hdrCapacityMin m.hdrCapacityMax b = 0 := by
      rw [weightFactor, max_eq_right hlogb, min_eq_left hlt.le, sub_self, zero_div]
    rw [decode, hw]
    have hpix : decodePixel m 0 = fun S _ => fun c => S c + m.offsetSdr c - m.offsetHdr c := by
      funext S G c
      rw [decodePixel, decodeChannel, mul_zero, Real.rpow_zero, mul_one]
    rw [hpix]
  · have hlogb : m.hdrCapacityMax ≤ Real.logb 2 b :=
      (Real.le_logb_iff_rpow_le h2 hb).mpr hhigh
    have hw : weightFactor m.hdrCapacityMin m.hdrCapacityMax b = 1 := by
      rw [weightFactor, max_eq_left (le_trans hlt.le hlogb), min_eq_right hlogb,
        div_self (sub_ne_zero.mpr hlt.ne')]
    rw [decode, hw]
  · have hge' : m.hdrCapacityMin ≤ Real.logb 2 b :=
      (Real.le_logb_iff_rpow_le h2 hb).mpr hge
    have hle' : Real.logb 2 b ≤ m.hdrCapacityMax :=
      (Real.logb_le_iff_le_rpow h2 hb).mpr hle
    rw [weightFactor, max_eq_left hge', min_eq_left hle']

/-- C3 witness: the amended boundary theorem applied to the record
`boundaryExampleMetadata` at `maxDisplayBoost = 1`. -/
theorem decode_boundary_witness :
    decode boundaryExampleMetadata 1 [fun _ : Fin 3 => (1 / 2 : ℝ)]
        [fun _ : Fin 3 => (1 / 2 : ℝ)] =
      List.zipWith
        (fun S _ => fun c =>
          S c + boundaryExampleMetadata.offsetSdr c - boundaryExampleMetadata.offsetHdr c)
        [fun _ : Fin 3 => (1 / 2 : ℝ)] [fun _ : Fin 3 => (1 / 2 : ℝ)] :=
  (decode_boundary boundaryExampleMetadata 1
    (by norm_num [boundaryExampleMetadata]) (by norm_num [boundaryExampleMetadata])
    (by norm_num)).1
    (by norm_num [boundaryExampleMetadata]) _ _

/-! ## Resource lifecycle of the render passes

`decode` (src/decode.ts) and `renderSDR` (src/encode-utils/render-sdr.ts)
are embedded as functions from an abstract backend outcome (did the raster
pipeline report an error, and with which diagnostic) to a run record
listing the resources allocated and released and the returned or thrown
result. -/

/-- The resources allocated and released by the passes of the repository. -/
inductive Res
  | sdrTexture
  | gainMapTexture
  | decoderMaterial
  | renderTarget
  | rendererObject
  | glContext
  | planeGeometry
  | planeMaterial
  deriving DecidableEq

/-- Outcome of one pass: which resources it allocated and released, and
the value it returned or the error it threw. -/
structure DecodeRun where
  allocated : List Res
  released : List Res
  result : Except String Unit

/-- From `decode` in src/decode.ts: two textures, the decoder material and
the quad renderer's render target are allocated; when `render()` throws,
all four are disposed and the backend error is rethrown unchanged; on
success nothing is released (the quad renderer is returned to the
caller). -/
def decodeRun (renderFailure : Option String) : DecodeRun :=
  match renderFailure with
  | some e =>
    { allocated := [Res.sdrTexture, Res.gainMapTexture, Res.decoderMaterial, Res.renderTarget],
      released := [Res.sdrTexture, Res.gainMapTexture, Res.decoderMaterial, Res.renderTarget],
      result := Except.error e }
  | none =>
    { allocated := [Res.sdrTexture, Res.gainMapTexture, Res.decoderMaterial, Res.renderTarget],
      released := [],
      result := Except.ok () }

/-- A WebGL renderer as far as the embedded code observes it. -/
structure Renderer where
  width : ℕ
  height : ℕ
  checkShaderErrors : Bool
  deriving DecidableEq

/-- From `instantiateRenderer` in render-sdr.ts: a fresh renderer sized
128×128 with shader error checking disabled. -/
def instantiateRenderer : Renderer :=
  { width := 128, height := 128, checkShaderErrors := false }

/-- From `cleanup` in render-sdr.ts: the renderer is disposed and its GL
context force-lost only when `destroyRenderer` is set; the render target,
when present, is always disposed. -/
def cleanup (destroyRenderer : Bool) (hasRenderTarget : Bool) : List Res :=
  (if destroyRenderer then [Res.rendererObject, Res.glContext] else []) ++
    (if hasRenderTarget then [Res.renderTarget] else [])

/-- One RGBA pixel of the HDR input, in linear light. -/
structure RGBA where
  r : ℚ
  g : ℚ
  b : ℚ
  a : ℚ
  deriving DecidableEq

/-- Clamp a channel value to the unit interval. -/
def clamp01 (x : ℚ) : ℚ := min (max x 0) 1

/-- Quantize a clamped channel value to an 8-bit integer. -/
def quantize8 (x : ℚ) : ℕ := (Int.floor (255 * clamp01 x)).toNat

/-- Modelled from the spec: the SDR rendition's per-pixel program (the
backend material is not under src/): a linear clamp/scale tone map
followed by the 8-bit output encode; alpha carries no HDR information and
is forced to 1.0, that is 255. -/
def toneMapPixel (p : RGBA) : List ℕ :=
  [quantize8 p.r, quantize8 p.g, quantize8 p.b, 255]

/-- Modelled from the spec: the whole-image SDR rendition, one 4-byte RGBA
group per input pixel. -/
def toneMapImage (img : List RGBA) : List ℕ :=
  List.flatten (img.map toneMapPixel)

/-- The message prefix used by render-sdr.ts when the backend reports an
error. -/
def sdrErrorText : String := "An error occurred while rendering the SDR image: "

/-- Outcome of one `renderSDR` call. -/
structure SDRRun where
  usedRenderer : Renderer
  createdRenderer : Bool
  allocated : List Res
  released : List Res
  result : Except String (List ℕ)

/-- From `renderSDR` in render-sdr.ts (its per-pixel program modelled from
the spec as `toneMapImage`): a renderer is created exactly when none is
supplied; the plane's geometry and material and the render target are
allocated (plus the renderer when created); `cleanup` runs on both the
failure and the success path; a backend failure is rethrown wrapped in
`sdrErrorText`. -/
def renderSDR (hdr : List RGBA) (renderer : Option Renderer)
    (renderFailure : Option String) : SDRRun :=
  let destroyRenderer := renderer.isNone
  { usedRenderer := renderer.getD instantiateRenderer,
    createdRenderer := destroyRenderer,
    allocated :=
      [Res.planeGeometry, Res.planeMaterial, Res.renderTarget] ++
        (if destroyRenderer then [Res.rendererObject] else []),
    released := cleanup destroyRenderer true,
    result :=
      match renderFailure with
      | some err => Except.error (sdrErrorText ++ err)
      | none => Except.ok (toneMapImage hdr) }

/-- The state of a quad-renderer pass object as far as disposal is
observable. -/
structure QuadRendererState where
  ownsRenderer : Bool
  renderTargetDisposed : Bool
  rendererDisposed : Bool
  deriving DecidableEq

/-- Modelled from the spec: a freshly constructed pass; `provided` tells
whether the caller supplied a pre-existing shared execution context, in
which case the pass does not own it. -/
def QuadRenderer.construct (provided : Bool) : QuadRendererState :=
  { ownsRenderer := !provided, renderTargetDisposed := false, rendererDisposed := false }

/-- Modelled from the spec: `dispose()` releases the output surface and
any owned execution context, each at most once; a second call is a no-op
and a shared context is never released.  Returns the new state together
with the release events emitted by this call. -/
def QuadRenderer.dispose (s : QuadRendererState) : QuadRendererState × List Res :=
  ({ ownsRenderer := s.ownsRenderer,
     renderTargetDisposed := true,
     rendererDisposed := s.rendererDisposed || s.ownsRenderer },
   (if s.renderTargetDisposed then [] else [Res.renderTarget]) ++
     (if s.ownsRenderer && !s.rendererDisposed then [Res.rendererObject] else []))

/-- A pass of the encode pipeline, reduced to the identity of the
execution context it renders with and whether that context was created by
the pass itself. -/
structure EncodePass where
  renderer : ℕ
  createdRenderer : Bool
  deriving DecidableEq

/-- Modelled from the spec: `getSDRRendition` builds the SDR pass on the
caller-provided execution context when one is given and otherwise creates
a fresh one. -/
def getSDRRendition (renderer : Option ℕ) (fresh : ℕ) : EncodePass :=
  match renderer with
  | some r => { renderer := r, createdRenderer := false }
  | none => { renderer := fresh, createdRenderer := true }

/-- Modelled from the spec: `getGainMap` builds the gain-map pass on
exactly the execution context it is handed. -/
def getGainMap (renderer : ℕ) : EncodePass :=
  { renderer := renderer, createdRenderer := false }

/-- The two passes returned by `encode`. -/
structure EncodeResult where
  sdr : EncodePass
  gainMap : EncodePass
  deriving DecidableEq

/-- From `encode` in src/encode.ts: the SDR pass is built from the
optional caller renderer, and the gain-map pass is built with
`sdr.renderer`, the renderer instance of the SDR pass. -/
def encode (renderer : Option ℕ) (fresh : ℕ) : EncodeResult :=
  { sdr := getSDRRendition renderer fresh,
    gainMap := getGainMap (getSDRRendition renderer fresh).renderer }

/-- A diagnostic message standing for an arbitrary backend shader error,
used in concrete counterexamples and witnesses. -/
def testDiagnostic : String := "FRAMEBUFFER_INCOMPLETE_ATTACHMENT"

/-- C4 counterexample: on a failed `renderSDR` pass the plane's material
(and geometry) allocated for the pass are not released before the wrapped
backend error propagates, refuting "every resource allocated for that pass
is released". -/
theorem renderSDR_failure_leak :
    (renderSDR [] none (some testDiagnostic)).result =
      Except.error (sdrErrorText ++ testDiagnostic) ∧
    Res.planeMaterial ∈ (renderSDR [] none (some testDiagnostic)).allocated ∧
    Res.planeGeometry ∈ (renderSDR [] none (some testDiagnostic)).allocated ∧
    Res.planeMaterial ∉ (renderSDR [] none (some testDiagnostic)).released ∧
    Res.planeGeometry ∉ (renderSDR [] none (some testDiagnostic)).released := by
  refine ⟨rfl, ?_, ?_, ?_, ?_⟩ <;> decide

/-- C4 amended: on a failed `decode` pass every allocated resource (both
input textures, the decoder material and the render target) is released
and the backend error propagates unchanged; on a failed `renderSDR` pass
the render target is released — plus the renderer and its GL context when
the pass created them — and the error carries the backend diagnostic as a
suffix, but the plane geometry and material allocated for the pass are
not released. -/
theorem render_failure_resource_release (err : String) (hdr : List RGBA) (r : Renderer) :
    ((decodeRun (some err)).released = (decodeRun (some err)).allocated ∧
      (decodeRun (some err)).result = Except.error err) ∧
    ((renderSDR hdr none (some err)).released =
        [Res.rendererObject, Res.glContext, Res.renderTarget] ∧
      (renderSDR hdr none (some err)).result = Except.error (sdrErrorText ++ err) ∧
      Res.planeMaterial ∈ (renderSDR hdr none (some err)).allocated ∧
      Res.planeMaterial ∉ (renderSDR hdr none (some err)).released ∧
      Res.planeGeometry ∉ (renderSDR hdr none (some err)).released) ∧
    ((renderSDR hdr (some r) (some err)).released = [Res.renderTarget] ∧
      (renderSDR hdr (some r) (some err)).result = Except.error (sdrErrorText ++ err) ∧
      Res.planeMaterial ∉ (renderSDR hdr (some r) (some err)).released) := by
  refine ⟨⟨rfl, rfl⟩, ⟨rfl, rfl, ?_, ?_, ?_⟩, ⟨rfl, rfl, ?_⟩⟩ <;>
    simp [renderSDR, cleanup]

/-- C7: a caller-supplied shared execution context is never destroyed:
`cleanup` with `destroyRenderer = false` (the shared-renderer case of
render-sdr.ts) releases at most the render target and never the renderer
or its GL context, and `dispose()` on a pass that does not own its context
never emits a renderer release — on a pass constructed with a shared
context it releases exactly its own render target. -/
theorem shared_context_not_destroyed (s : QuadRendererState)
    (hshared : s.ownsRenderer = false) :
    Res.rendererObject ∉ (QuadRenderer.dispose s).2 ∧
    Res.glContext ∉ (QuadRenderer.dispose s).2 ∧
    (QuadRenderer.dispose (QuadRenderer.construct true)).2 = [Res.renderTarget] ∧
    (∀ hasRT : Bool, Res.rendererObject ∉ cleanup false hasRT ∧
      Res.glContext ∉ cleanup false hasRT) := by
  rcases s with ⟨o, rt, rd⟩
  cases hshared
  refine ⟨?_, ?_, rfl, fun hasRT => ?_⟩
  · cases rt <;> cases rd <;> decide
  · cases rt <;> cases rd <;> decide
  · cases hasRT <;> decide

/-- C7 witness: the theorem applied to a pass freshly constructed with a
shared context. -/
theorem shared_context_not_destroyed_witness :
    Res.rendererObject ∉ (QuadRenderer.dispose (QuadRenderer.construct true)).2 ∧
    Res.glContext ∉ (QuadRenderer.dispose (QuadRenderer.construct true)).2 :=
  ⟨(shared_context_not_destroyed (QuadRenderer.construct true) rfl).1,
    (shared_context_not_destroyed (QuadRenderer.construct true) rfl).2.1⟩

/-- C8: `dispose()` is idempotent: from any pass state a second `dispose`
emits no release event and leaves the state unchanged, and over the whole
life of a freshly constructed pass the render target is released exactly
once and the execution context exactly once when owned, never when
shared. -/
theorem dispose_idempotent (s : QuadRendererState) (provided : Bool) :
    QuadRenderer.dispose (QuadRenderer.dispose s).1 = ((QuadRenderer.dispose s).1, []) ∧
    List.count Res.renderTarget
      ((QuadRenderer.dispose (QuadRenderer.construct provided)).2 ++
        (QuadRenderer.dispose (QuadRenderer.dispose (QuadRenderer.construct provided)).1).2) = 1 ∧
    List.count Res.rendererObject
      ((QuadRenderer.dispose (QuadRenderer.construct provided)).2 ++
        (QuadRenderer.dispose (QuadRenderer.dispose (QuadRenderer.construct provided)).1).2) =
      (if provided then 0 else 1) := by
  rcases s with ⟨o, rt, rd⟩
  cases o <;> cases rt <;> cases rd <;> cases provided <;> decide

/-- C9: `encode` builds the gain-map pass with the same execution context
as the SDR rendition pass — whether the caller supplied a renderer or the
SDR pass created one, `sdr.renderer` is what the gain-map pass receives,
and the gain-map pass never creates a second context. -/
theorem encode_single_renderer (renderer : Option ℕ) (fresh : ℕ) :
    (encode renderer fresh).gainMap.renderer = (encode renderer fresh).sdr.renderer ∧
    (encode renderer fresh).gainMap.createdRenderer = false := by
  cases renderer <;> exact ⟨rfl, rfl⟩

/-- C10: `renderSDR` without a renderer argument uses its self-created
renderer — sized 128×128 with shader error checking disabled — and on both
the success and the failure path disposes it and forces loss of its GL
context; a caller-supplied renderer is never disposed nor has its context
force-lost. -/
theorem renderSDR_renderer_lifecycle (hdr : List RGBA) (renderFailure : Option String)
    (r : Renderer) :
    ((renderSDR hdr none renderFailure).usedRenderer = instantiateRenderer ∧
      (renderSDR hdr none renderFailure).createdRenderer = true ∧
      instantiateRenderer.width = 128 ∧ instantiateRenderer.height = 128 ∧
      instantiateRenderer.checkShaderErrors = false ∧
      Res.rendererObject ∈ (renderSDR hdr none renderFailure).released ∧
      Res.glContext ∈ (renderSDR hdr none renderFailure).released) ∧
    ((renderSDR hdr (some r) renderFailure).createdRenderer = false ∧
      Res.rendererObject ∉ (renderSDR hdr (some r) renderFailure).released ∧
      Res.glContext ∉ (renderSDR hdr (some r) renderFailure).released) := by
  cases renderFailure <;>
    refine ⟨⟨rfl, rfl, rfl, rfl, rfl, ?_, ?_⟩, rfl, ?_, ?_⟩ <;>
    simp [renderSDR, cleanup]

/-- Every quantized channel value fits in 8 bits. -/
theorem quantize8_lt (x : ℚ) : quantize8 x < 256 := by
  have h1 : clamp01 x ≤ 1 := min_le_right _ _
  have h2 : (255 : ℚ) * clamp01 x ≤ 255 := by nlinarith
  have h3 : Int.floor ((255 : ℚ) * clamp01 x) ≤ 255 := by
    calc Int.floor ((255 : ℚ) * clamp01 x) ≤ Int.floor ((255 : ℚ)) := Int.floor_le_floor h2
    _ = 255 := by norm_num
  unfold quantize8
  omega

/-- The SDR rendition buffer has four bytes per input pixel. -/
theorem toneMapImage_length (img : List RGBA) : (toneMapImage img).length = 4 * img.length := by
  induction img with
  | nil => rfl
  | cons p rest ih =>
    simp only [toneMapImage, List.map_cons, List.flatten_cons] at *
    simp [toneMapPixel, ih]
    omega

/-- Every byte of the SDR rendition buffer is an 8-bit value. -/
theorem toneMapImage_mem_lt (img : List RGBA) : ∀ v ∈ toneMapImage img, v < 256 := by
  induction img with
  | nil => intro v hv; simp [toneMapImage] at hv
  | cons p rest ih =>
    intro v hv
    simp only [toneMapImage, List.map_cons, List.flatten_cons, List.mem_append] at hv
    rcases hv with hv | hv
    · simp only [toneMapPixel, List.mem_cons, List.not_mem_nil, or_false] at hv
      rcases hv with rfl | rfl | rfl | rfl <;> first | exact quantize8_lt _ | omega
    · exact ih v hv

/-- The alpha byte of every pixel of the SDR rendition buffer is 255. -/
theorem toneMapImage_alpha (img : List RGBA) :
    ∀ i, i < img.length → (toneMapImage img)[4 * i + 3]? = some 255 := by
  induction img with
  | nil => intro i hi; simp at hi
  | cons p rest ih =>
    intro i hi
    simp only [toneMapImage, List.map_cons, List.flatten_cons]
    cases i with
    | zero => simp [toneMapPixel]
    | succ j =>
      have hlen : (toneMapPixel p).length = 4 := rfl
      have hge : (toneMapPixel p).length ≤ 4 * (j + 1) + 3 := by omega
      rw [List.getElem?_append_right hge]
      have harith : 4 * (j + 1) + 3 - (toneMapPixel p).length = 4 * j + 3 := by omega
      rw [harith]
      exact ih j (by simpa using Nat.lt_of_succ_lt_succ hi)

/-- C6: whenever `renderSDR` succeeds, the returned buffer is an 8-bit
RGBA buffer with four bytes per input pixel in which every pixel's alpha
byte equals 255 — the SDR rendition is fully opaque. -/
theorem renderSDR_alpha_forced (hdr : List RGBA) (renderer : Option Renderer)
    (buf : List ℕ) (hok : (renderSDR hdr renderer none).result = Except.ok buf) :
    buf.length = 4 * hdr.length ∧ (∀ v ∈ buf, v < 256) ∧
    ∀ i, i < hdr.length → buf[4 * i + 3]? = some 255 := by
  have hbuf : buf = toneMapImage hdr := by
    have : (renderSDR hdr renderer none).result = Except.ok (toneMapImage hdr) := rfl
    rw [this] at hok
    exact (Except.ok.injEq _ _ ▸ hok).symm
  subst hbuf
  exact ⟨toneMapImage_length hdr, toneMapImage_mem_lt hdr, toneMapImage_alpha hdr⟩

/-- A concrete HDR pixel used to instantiate the opacity theorem; its own
alpha is 0. -/
def opaqueWitnessPixel : RGBA :=
  { r := 0, g := 0, b := 0, a := 0 }

/-- C6 witness: the opacity theorem applied to a one-pixel HDR image whose
own alpha is 0; the rendered buffer still carries alpha 255. -/
theorem renderSDR_alpha_forced_witness :
    ([0, 0, 0, 255] : List ℕ).length = 4 * [opaqueWitnessPixel].length ∧
      ([0, 0, 0, 255] : List ℕ)[4 * 0 + 3]? = some 255 :=
  ⟨(renderSDR_alpha_forced [opaqueWitnessPixel] none [0, 0, 0, 255]
      (by simp [renderSDR, toneMapImage, toneMapPixel, quantize8, clamp01,
        opaqueWitnessPixel])).1,
    (renderSDR_alpha_forced [opaqueWitnessPixel] none [0, 0, 0, 255]
      (by simp [renderSDR, toneMapImage, toneMapPixel, quantize8, clamp01,
        opaqueWitnessPixel])).2.2 0 (by decide)⟩

/-! ## Container metadata extraction

The container codec is not under src/; it is modelled from the spec at the
level of marker segments. -/

/-- The extraction errors of the container codec. -/
inductive ContainerError
  | metadataNotFound
  | malformedContainer
  deriving DecidableEq

/-- Modelled from the spec: one marker segment of the byte stream:
whether its signature prefix matches the metadata scheme, its declared
total-segment count and segment index, and its payload bytes. -/
structure ContainerSegment where
  isMeta : Bool
  total : ℕ
  idx : ℕ
  payload : List ℕ
  deriving DecidableEq

/-- The segments whose signature matches the metadata scheme. -/
def metaSegments (segs : List ContainerSegment) : List ContainerSegment :=
  segs.filter (·.isMeta)

/-- Modelled from the spec: the matching segments are consistent when,
sorted by declared index, the indices are exactly the contiguous range
`1..count` and every segment declares the count as its total. -/
def segmentsWellFormed (metas : List ContainerSegment) : Bool :=
  ((List.insertionSort (fun a b => a.idx ≤ b.idx) metas).map (·.idx) ==
      List.range' 1 metas.length) &&
    metas.all (fun s => s.total == metas.length)

/-- Modelled from the spec: `extract` scans for segments with the metadata
signature, fails with `MetadataNotFoundError` when none exists, checks the
declared indices and totals and fails with `MalformedContainerError` when
they are inconsistent or non-contiguous, and otherwise reassembles the
payloads in ascending declared-index order. -/
def extractPacket (segs : List ContainerSegment) : Except ContainerError (List ℕ) :=
  if (metaSegments segs).isEmpty then Except.error ContainerError.metadataNotFound
  else if segmentsWellFormed (metaSegments segs) then
    Except.ok
      (List.flatten
        ((List.insertionSort (fun a b => a.idx ≤ b.idx) (metaSegments segs)).map (·.payload)))
  else Except.error ContainerError.malformedContainer

/-- C5: extraction on a byte stream containing no segment with the
metadata signature fails with `MetadataNotFoundError`, and extraction on a
byte stream one of whose metadata segments declares an index beyond its
declared total (such as index 3 of 2) fails with `MalformedContainerError`;
it never succeeds in either situation. -/
theorem extractPacket_error_cases (segs : List ContainerSegment) :
    ((∀ s ∈ segs, s.isMeta = false) →
      extractPacket segs = Except.error ContainerError.metadataNotFound) ∧
    (∀ s ∈ segs, s.isMeta = true → s.total < s.idx →
      extractPacket segs = Except.error ContainerError.malformedContainer) := by
  constructor
  · intro hnone
    have hempty : metaSegments segs = [] := by
      refine List.filter_eq_nil_iff.mpr ?_
      intro s hs
      simp [hnone s hs]
    rw [extractPacket, hempty]
    rfl
  · intro s hs hmeta hbad
    have hmem : s ∈ metaSegments segs := by
      rw [metaSegments, List.mem_filter]
      exact ⟨hs, by simp [hmeta]⟩
    have hne : (metaSegments segs).isEmpty = false := by
      simp only [List.isEmpty_eq_false]
      exact List.ne_nil_of_mem hmem
    have hmal : segmentsWellFormed (metaSegments segs) = false := by
      by_contra hwf
      rw [Bool.not_eq_false, segmentsWellFormed, Bool.and_eq_true, beq_iff_eq,
        List.all_eq_true] at hwf
      obtain ⟨hsorted, htotals⟩ := hwf
      have hidx : s.idx ∈
          (List.insertionSort (fun a b => a.idx ≤ b.idx) (metaSegments segs)).map (·.idx) :=
        List.mem_map_of_mem _
          (((List.perm_insertionSort (fun a b => a.idx ≤ b.idx)
            (metaSegments segs)).mem_iff).mpr hmem)
      rw [hsorted, List.mem_range'_1] at hidx
      have htot : s.total = (metaSegments segs).length := by
        have := htotals s hmem
        exact beq_iff_eq.mp this
      omega
    rw [extractPacket, hne, hmal]
    rfl

/-- C5 witness: the theorem applied to a stream with one non-metadata
segment and to a stream whose sole metadata segment declares index 3 of
2. -/
theorem extractPacket_error_cases_witness :
    extractPacket [{ isMeta := false, total := 1, idx := 1, payload := [7] }] =
      Except.error ContainerError.metadataNotFound ∧
    extractPacket [{ isMeta := true, total := 2, idx := 3, payload := [7] }] =
      Except.error ContainerError.malformedContainer :=
  ⟨(extractPacket_error_cases [{ isMeta := false, total := 1, idx := 1, payload := [7] }]).1
      (by decide),
    (extractPacket_error_cases [{ isMeta := true, total := 2, idx := 3, payload := [7] }]).2
      { isMeta := true, total := 2, idx := 3, payload := [7] } (by decide) rfl (by decide)⟩

/-! ## Metadata packet codec

The packet codec (serialization of the metadata record to textual
key/value entries and parsing back) is not under src/; it is modelled from
the spec: seven namespace keys, each valued by one number or three
comma-separated numbers, numbers written as (sign +) numerator, a slash
and a denominator. -/

/-- The character of a single decimal digit. -/
def digitChar (d : ℕ) : Char := Char.ofNat (48 + d)

/-- The numeric value of a digit character. -/
def charVal (c : Char) : ℕ := c.toNat - 48

/-- The comma separating the channels of a triplet value. -/
def commaChar : Char := ','

/-- The sign character of a negative number. -/
def minusChar : Char := '-'

/-- The separator between numerator and denominator. -/
def slashChar : Char := '/'

/-- The decimal digits of `n`, least significant first, with explicit
fuel. -/
def toDigitsRev : ℕ → ℕ → List ℕ
  | 0, _ => []
  | f + 1, n => if n = 0 then [] else n % 10 :: toDigitsRev f (n / 10)

/-- Read back a least-significant-first digit list. -/
def ofDigitsRev : List ℕ → ℕ
  | [] => 0
  | d :: ds => d + 10 * ofDigitsRev ds

/-- The decimal character rendering of a natural number, most significant
digit first. -/
def natToChars (n : ℕ) : List Char :=
  if n = 0 then [digitChar 0] else ((toDigitsRev n n).map digitChar).reverse

/-- Parse a most-significant-first decimal character list. -/
def parseNatChars (cs : List Char) : ℕ :=
  ofDigitsRev ((cs.map charVal).reverse)

theorem toDigitsRev_lt (fuel n : ℕ) : ∀ d ∈ toDigitsRev fuel n, d < 10 := by
  induction fuel generalizing n with
  | zero => intro d hd; simp [toDigitsRev] at hd
  | succ f ih =>
    intro d hd
    rw [toDigitsRev] at hd
    by_cases hn : n = 0
    · simp [hn] at hd
    · rw [if_neg hn] at hd
      rcases List.mem_cons.mp hd with rfl | h
      · omega
      · exact ih (n / 10) d h

theorem ofDigitsRev_toDigitsRev (fuel n : ℕ) (h : n ≤ fuel) :
    ofDigitsRev (toDigitsRev fuel n) = n := by
  induction fuel generalizing n with
  | zero => interval_cases n; rfl
  | succ f ih =>
    rw [toDigitsRev]
    by_cases hn : n = 0
    · simp [hn, ofDigitsRev]
    · rw [if_neg hn, ofDigitsRev]
      have hdiv : n / 10 ≤ f := by
        have := Nat.div_lt_self (Nat.pos_of_ne_zero hn) (by norm_num : 1 < 10)
        omega
      rw [ih (n / 10) hdiv]
      omega

theorem digitChar_toNat (d : ℕ) (h : d < 10) : (digitChar d).toNat = 48 + d := by
  interval_cases d <;> decide

theorem charVal_digitChar (d : ℕ) (h : d < 10) : charVal (digitChar d) = d := by
  rw [charVal, digitChar_toNat d h]
  omega

theorem natToChars_toNat (n : ℕ) : ∀ c ∈ natToChars n, 48 ≤ c.toNat ∧ c.toNat < 58 := by
  intro c hc
  rw [natToChars] at hc
  by_cases hn : n = 0
  · rw [if_pos hn, List.mem_singleton] at hc
    subst hc
    decide
  · rw [if_neg hn, List.mem_reverse] at hc
    obtain ⟨d, hd, rfl⟩ := List.mem_map.mp hc
    have hlt := toDigitsRev_lt n n d hd
    rw [digitChar_toNat d hlt]
    omega

theorem natToChars_ne_nil (n : ℕ) : natToChars n ≠ [] := by
  rw [natToChars]
  by_cases hn : n = 0
  · simp [hn]
  · rw [if_neg hn]
    obtain ⟨m, rfl⟩ := Nat.exists_eq_succ_of_ne_zero hn
    simp [toDigitsRev]

theorem parseNatChars_natToChars (n : ℕ) : parseNatChars (natToChars n) = n := by
  by_cases hn : n = 0
  · subst hn; decide
  · rw [natToChars, if_neg hn, parseNatChars, List.map_reverse, List.reverse_reverse,
      List.map_map]
    have hmap : (toDigitsRev n n).map (charVal ∘ digitChar) = (toDigitsRev n n).map id :=
      List.map_congr_left (fun d hd => charVal_digitChar d (toDigitsRev_lt n n d hd))
    rw [hmap, List.map_id]
    exact ofDigitsRev_toDigitsRev n n le_rfl

/-- The character rendering of an integer: an optional minus sign followed
by the decimal digits of the absolute value. -/
def intToChars (i : ℤ) : List Char :=
  if i < 0 then minusChar :: natToChars i.natAbs else natToChars i.toNat

/-- Parse an optionally minus-signed decimal character list. -/
def parseIntChars (cs : List Char) : ℤ :=
  match cs with
  | [] => 0
  | c :: rest =>
    if c = minusChar then -(parseNatChars rest : ℤ) else (parseNatChars (c :: rest) : ℤ)

theorem parseIntChars_intToChars (i : ℤ) : parseIntChars (intToChars i) = i := by
  by_cases hi : i < 0
  · rw [intToChars, if_pos hi, parseIntChars, if_pos rfl, parseNatChars_natToChars]
    omega
  · rw [intToChars, if_neg hi]
    obtain ⟨c, rest, heq⟩ := List.exists_cons_of_ne_nil (natToChars_ne_nil i.toNat)
    have hc : c ∈ natToChars i.toNat := by
      rw [heq]
      exact List.mem_cons_self c rest
    have hdig := natToChars_toNat i.toNat c hc
    have hcm : c ≠ minusChar := by
      intro hcontra
      subst hcontra
      revert hdig
      decide
    rw [heq, parseIntChars, if_neg hcm, ← heq, parseNatChars_natToChars]
    omega

/-- The character rendering of a rational: numerator, slash,
denominator. -/
def ratToChars (q : ℚ) : List Char :=
  intToChars q.num ++ slashChar :: natToChars q.den

/-- Parse a slash-separated rational rendering. -/
def parseRatChars (cs : List Char) : ℚ :=
  (parseIntChars (cs.takeWhile (fun c => c != slashChar)) : ℚ) /
    (parseNatChars ((cs.dropWhile (fun c => c != slashChar)).tail) : ℚ)

theorem takeWhile_append_sep (sep : Char) (l r : List Char) (h : ∀ c ∈ l, c ≠ sep) :
    (l ++ sep :: r).takeWhile (fun c => c != sep) = l := by
  induction l with
  | nil => simp
  | cons c l ih =>
    have hc : (c != sep) = true := by
      simpa using h c (List.mem_cons_self c l)
    simp only [List.cons_append, List.takeWhile_cons, hc, if_true]
    rw [ih (fun x hx => h x (List.mem_cons_of_mem c hx))]

theorem dropWhile_append_sep (sep : Char) (l r : List Char) (h : ∀ c ∈ l, c ≠ sep) :
    (l ++ sep :: r).dropWhile (fun c => c != sep) = sep :: r := by
  induction l with
  | nil => simp
  | cons c l ih =>
    have hc : (c != sep) = true := by
      simpa using h c (List.mem_cons_self c l)
    simp only [List.cons_append, List.dropWhile_cons, hc, if_true]
    exact ih (fun x hx => h x (List.mem_cons_of_mem c hx))

theorem natToChars_ne_special (n : ℕ) :
    ∀ c ∈ natToChars n, c ≠ commaChar ∧ c ≠ minusChar ∧ c ≠ slashChar := by
  intro c hc
  have h := natToChars_toNat n c hc
  refine ⟨?_, ?_, ?_⟩ <;> intro he <;> subst he <;> revert h <;> decide

theorem intToChars_ne_slash (i : ℤ) : ∀ c ∈ intToChars i, c ≠ slashChar := by
  intro c hc
  rw [intToChars] at hc
  by_cases hi : i < 0
  · rw [if_pos hi] at hc
    rcases List.mem_cons.mp hc with rfl | hc'
    · decide
    · exact (natToChars_ne_special _ c hc').2.2
  · rw [if_neg hi] at hc
    exact (natToChars_ne_special _ c hc).2.2

theorem parseRatChars_ratToChars (q : ℚ) : parseRatChars (ratToChars q) = q := by
  rw [parseRatChars, ratToChars,
    takeWhile_append_sep slashChar _ _ (intToChars_ne_slash q.num),
    dropWhile_append_sep slashChar _ _ (intToChars_ne_slash q.num), List.tail_cons,
    parseIntChars_intToChars, parseNatChars_natToChars]
  exact Rat.num_div_den q

/-- Split a character list at every occurrence of `sep`. -/
def splitOnChar (sep : Char) : List Char → List (List Char)
  | [] => [[]]
  | c :: rest =>
    match splitOnChar sep rest with
    | [] => [[c]]
    | h :: t => if c = sep then [] :: h :: t else (c :: h) :: t

theorem splitOnChar_ne_nil (sep : Char) (l : List Char) : splitOnChar sep l ≠ [] := by
  induction l with
  | nil => simp [splitOnChar]
  | cons c rest ih =>
    rw [splitOnChar]
    obtain ⟨h, t, heq⟩ := List.exists_cons_of_ne_nil ih
    rw [heq]
    by_cases hc : c = sep <;> simp [hc]

theorem splitOnChar_sepFree (sep : Char) (l : List Char) (h : ∀ c ∈ l, c ≠ sep) :
    splitOnChar sep l = [l] := by
  induction l with
  | nil => rfl
  | cons c l ih =>
    have hl : splitOnChar sep l = [l] := ih (fun x hx => h x (List.mem_cons_of_mem c hx))
    rw [splitOnChar, hl]
    simp [h c (List.mem_cons_self c l)]

theorem splitOnChar_append (sep : Char) (l rest : List Char) (h : ∀ c ∈ l, c ≠ sep) :
    splitOnChar sep (l ++ sep :: rest) = l :: splitOnChar sep rest := by
  induction l with
  | nil =>
    simp only [List.nil_append]
    obtain ⟨h1, t1, heq⟩ := List.exists_cons_of_ne_nil (splitOnChar_ne_nil sep rest)
    rw [splitOnChar, heq]
    simp
  | cons c l ih =>
    have hl := ih (fun x hx => h x (List.mem_cons_of_mem c hx))
    rw [List.cons_append, splitOnChar, hl]
    simp [h c (List.mem_cons_self c l)]

/-- Modelled from the spec: a per-channel parameter triplet (R, G, B). -/
structure ColorChannelTriplet where
  r : ℚ
  g : ℚ
  b : ℚ
  deriving DecidableEq

/-- Modelled from the spec: a triplet whose three channels agree is
serialized as a single number, otherwise as three comma-separated
per-channel numbers. -/
def serializeChannelValue (t : ColorChannelTriplet) : List Char :=
  if t.r = t.g ∧ t.g = t.b then ratToChars t.r
  else ratToChars t.r ++ commaChar :: (ratToChars t.g ++ commaChar :: ratToChars t.b)

/-- Modelled from the spec: a value of one or three comma-separated
numbers read back into a triplet, a single number applying to all three
channels. -/
def parseChannelValue (cs : List Char) : Option ColorChannelTriplet :=
  match (splitOnChar commaChar cs).map parseRatChars with
  | [x] => some { r := x, g := x, b := x }
  | [x, y, z] => some { r := x, g := y, b := z }
  | _ => none

/-- Modelled from the spec: a scalar field carries a single number. -/
def parseScalarValue (cs : List Char) : Option ℚ :=
  match (splitOnChar commaChar cs).map parseRatChars with
  | [x] => some x
  | _ => none

theorem intToChars_ne_comma (i : ℤ) : ∀ c ∈ intToChars i, c ≠ commaChar := by
  intro c hc
  rw [intToChars] at hc
  by_cases hi : i < 0
  · rw [if_pos hi] at hc
    rcases List.mem_cons.mp hc with rfl | hc'
    · decide
    · exact (natToChars_ne_special _ c hc').1
  · rw [if_neg hi] at hc
    exact (natToChars_ne_special _ c hc).1

theorem ratToChars_ne_comma (q : ℚ) : ∀ c ∈ ratToChars q, c ≠ commaChar := by
  intro c hc
  rw [ratToChars] at hc
  rcases List.mem_append.mp hc with hc' | hc'
  · exact intToChars_ne_comma q.num c hc'
  · rcases List.mem_cons.mp hc' with rfl | hc''
    · decide
    · exact (natToChars_ne_special _ c hc'').1

theorem parseChannelValue_serialize (t : ColorChannelTriplet) :
    parseChannelValue (serializeChannelValue t) = some t := by
  obtain ⟨r, g, b⟩ := t
  rw [serializeChannelValue]
  by_cases heq : r = g ∧ g = b
  · rw [if_pos heq]
    obtain ⟨rfl, rfl⟩ := heq
    rw [parseChannelValue, splitOnChar_sepFree _ _ (ratToChars_ne_comma _)]
    simp [parseRatChars_ratToChars]
  · rw [if_neg heq, parseChannelValue,
      splitOnChar_append _ _ _ (ratToChars_ne_comma r),
      splitOnChar_append _ _ _ (ratToChars_ne_comma g),
      splitOnChar_sepFree _ _ (ratToChars_ne_comma b)]
    simp [parseRatChars_ratToChars]

theorem parseScalarValue_ratToChars (q : ℚ) : parseScalarValue (ratToChars q) = some q := by
  rw [parseScalarValue, splitOnChar_sepFree _ _ (ratToChars_ne_comma q)]
  simp [parseRatChars_ratToChars]

/-- Modelled from the spec: the metadata record as carried by the packet,
with exactly representable (rational) numeric fields. -/
structure GainMapMetadataQ where
  gainMapMin : ColorChannelTriplet
  gainMapMax : ColorChannelTriplet
  gamma : ColorChannelTriplet
  offsetSdr : ColorChannelTriplet
  offsetHdr : ColorChannelTriplet
  hdrCapacityMin : ℚ
  hdrCapacityMax : ℚ
  deriving DecidableEq

/-- Modelled from the spec: the validity invariants of the record. -/
def GainMapMetadataQ.Valid (m : GainMapMetadataQ) : Prop :=
  m.gainMapMin.r ≤ m.gainMapMax.r ∧ m.gainMapMin.g ≤ m.gainMapMax.g ∧
    m.gainMapMin.b ≤ m.gainMapMax.b ∧
    0 ≤ m.hdrCapacityMin ∧ m.hdrCapacityMin ≤ m.hdrCapacityMax ∧
    0 < m.gamma.r ∧ 0 < m.gamma.g ∧ 0 < m.gamma.b

/-- The packet key of the gain map minimum. -/
def keyGainMapMin : String := "GainMapMin"

/-- The packet key of the gain map maximum. -/
def keyGainMapMax : String := "GainMapMax"

/-- The packet key of the encoding exponent. -/
def keyGamma : String := "Gamma"

/-- The packet key of the SDR offset. -/
def keyOffsetSDR : String := "OffsetSDR"

/-- The packet key of the HDR offset. -/
def keyOffsetHDR : String := "OffsetHDR"

/-- The packet key of the minimum HDR capacity. -/
def keyHDRCapacityMin : String := "HDRCapacityMin"

/-- The packet key of the maximum HDR capacity. -/
def keyHDRCapacityMax : String := "HDRCapacityMax"

/-- Modelled from the spec: the serialized metadata packet, a key/value
record with the seven namespace keys, triplet fields carrying one number
or three comma-separated numbers and the capacity scalars a single
number. -/
def serializePacket (m : GainMapMetadataQ) : List (String × List Char) :=
  [(keyGainMapMin, serializeChannelValue m.gainMapMin),
   (keyGainMapMax, serializeChannelValue m.gainMapMax),
   (keyGamma, serializeChannelValue m.gamma),
   (keyOffsetSDR, serializeChannelValue m.offsetSdr),
   (keyOffsetHDR, serializeChannelValue m.offsetHdr),
   (keyHDRCapacityMin, ratToChars m.hdrCapacityMin),
   (keyHDRCapacityMax, ratToChars m.hdrCapacityMax)]

/-- Modelled from the spec: parsing looks up each of the seven keys and
reads its value back, failing when a key is missing or a value is not one
or three numbers. -/
def parsePacket (entries : List (String × List Char)) : Option GainMapMetadataQ := do
  let gmin ← parseChannelValue (← List.lookup keyGainMapMin entries)
  let gmax ← parseChannelValue (← List.lookup keyGainMapMax entries)
  let gam ← parseChannelValue (← List.lookup keyGamma entries)
  let osdr ← parseChannelValue (← List.lookup keyOffsetSDR entries)
  let ohdr ← parseChannelValue (← List.lookup keyOffsetHDR entries)
  let cmin ← parseScalarValue (← List.lookup keyHDRCapacityMin entries)
  let cmax ← parseScalarValue (← List.lookup keyHDRCapacityMax entries)
  pure
    { gainMapMin := gmin, gainMapMax := gmax, gamma := gam,
      offsetSdr := osdr, offsetHdr := ohdr,
      hdrCapacityMin := cmin, hdrCapacityMax := cmax }

/-- C2: for every valid metadata record, parsing the serialized packet
returns the record field-for-field. -/
theorem parsePacket_serializePacket (m : GainMapMetadataQ) (_hv : m.Valid) :
    parsePacket (serializePacket m) = some m := by
  have l1 : List.lookup keyGainMapMin (serializePacket m) =
      some (serializeChannelValue m.gainMapMin) := rfl
  have l2 : List.lookup keyGainMapMax (serializePacket m) =
      some (serializeChannelValue m.gainMapMax) := rfl
  have l3 : List.lookup keyGamma (serializePacket m) =
      some (serializeChannelValue m.gamma) := rfl
  have l4 : List.lookup keyOffsetSDR (serializePacket m) =
      some (serializeChannelValue m.offsetSdr) := rfl
  have l5 : List.lookup keyOffsetHDR (serializePacket m) =
      some (serializeChannelValue m.offsetHdr) := rfl
  have l6 : List.lookup keyHDRCapacityMin (serializePacket m) =
      some (ratToChars m.hdrCapacityMin) := rfl
  have l7 : List.lookup keyHDRCapacityMax (serializePacket m) =
      some (ratToChars m.hdrCapacityMax) := rfl
  rw [parsePacket]
  simp [l1, l2, l3, l4, l5, l6, l7, parseChannelValue_serialize,
    parseScalarValue_ratToChars]

/-- A concrete valid metadata record for the packet round trip. -/
def packetWitnessMetadata : GainMapMetadataQ :=
  { gainMapMin := { r := 0, g := 0, b := 0 },
    gainMapMax := { r := 2, g := 3, b := 4 },
    gamma := { r := 1, g := 1, b := 1 },
    offsetSdr := { r := 1, g := 1, b := 1 },
    offsetHdr := { r := 1, g := 2, b := 3 },
    hdrCapacityMin := 0,
    hdrCapacityMax := 2 }

/-- C2 witness: the packet round trip applied to the concrete valid
record `packetWitnessMetadata`. -/
theorem parsePacket_serializePacket_witness :
    parsePacket (serializePacket packetWitnessMetadata) = some packetWitnessMetadata :=
  parsePacket_serializePacket packetWitnessMetadata
    (by norm_num [GainMapMetadataQ.Valid, packetWitnessMetadata])

end GainmapJS
